import Mathlib

/-!
Shallow embedding of the squirrel position manager
(`PositionManager` in `positionManager.go`, the variant with index-range
and disabled-node checks and address indirection).

Modelling conventions:
* Go `float64` coordinates are modelled as rationals (`ℚ`) for storage and
  as reals (`ℝ`) for the result of `Distance` (which involves `sqrt`).
* Go `int` indices are modelled as `ℤ`; a Go slice is a Lean `List`.
* A Go runtime panic (out-of-bounds slice access) is an explicit `panic`
  constructor of the result type; a Go `error` return is a `fail`
  constructor carrying an `Err` value summarising the `fmt.Errorf` message.
* A subscriber channel `chan<- []int` is modelled by the list of messages
  delivered to it so far (oldest first); sending appends a message.
* Locks (`sync.RWMutex`) have no effect in this sequential model and are
  dropped, except that `p.mu[index]` slice accesses can panic: the
  `index < 0` test after the range check models exactly that access.
* The external address resolver (`addressReverse.GetS`, whose source is
  outside this package) is modelled as an abstract function
  `String → Option ℤ`, following its contract
  `resolve(address) → (index, found)`.
-/

/-- The three error kinds produced by the manager, summarising the
`fmt.Errorf` messages in the source. -/
inductive Err where
  | indexOutOfRange (index cap : ℤ)
  | nodeDisabled (index : ℤ)
  | addressNotFound (addr : String)
deriving DecidableEq, Repr

/-- `squirrel.Position`: a triple of coordinates. -/
structure Position where
  x : ℚ
  y : ℚ
  height : ℚ
deriving DecidableEq, Repr

/-- The `PositionManager` struct. `enabledChanged` holds, for each
registered channel, the list of messages delivered to it so far. -/
structure PM where
  pos : List Position
  isEnabled : List Bool
  enabledChanged : List (List (List ℤ))
  addrReverse : String → Option ℤ

/-- Result of a read-only operation: value, Go error, or runtime panic. -/
inductive RRes (α : Type) where
  | ok (a : α)
  | fail (e : Err)
  | panic
deriving DecidableEq, Repr

/-- Result of a mutating operation: the new state (with a nil error), an
error together with the (unchanged) state, or a runtime panic. -/
inductive MRes where
  | ok (s : PM)
  | fail (e : Err) (s : PM)
  | panic

/-- Result of `Distance`: a float, or a runtime panic (it never errors). -/
inductive DRes where
  | ok (d : ℝ)
  | panic

/-- `NewPositionManager(size, addrReverse)`: all slots start at position
`(0,0,0)` and disabled; no channel is registered. -/
def NewPositionManager (size : ℕ) (addrReverse : String → Option ℤ) : PM :=
  { pos := List.replicate size ⟨0, 0, 0⟩
    isEnabled := List.replicate size false
    enabledChanged := []
    addrReverse := addrReverse }

/-- `Capacity()` = `len(p.pos)`. -/
def PM.Capacity (s : PM) : ℤ := (s.pos.length : ℤ)

/-- `Get(index)`: fails with the "invalid index" error if
`index >= len(p.pos)`; then accesses `p.mu[index]` (panic if negative);
fails with the "disabled" error if `!p.isEnabled[index]`; otherwise
returns a copy of `*p.pos[index]`. -/
def PM.Get (s : PM) (index : ℤ) : RRes Position :=
  if s.Capacity ≤ index then .fail (.indexOutOfRange index s.Capacity)
  else if index < 0 then .panic
  else match s.isEnabled.get? index.toNat with
    | none => .panic
    | some b =>
      if !b then .fail (.nodeDisabled index)
      else .ok (s.pos.getD index.toNat ⟨0, 0, 0⟩)

/-- `GetAddr(hardAddr)`: resolve via `addrReverse.GetS`; on a miss fail
with the "not found" error, otherwise `pos, err = p.Get(id)`. -/
def PM.GetAddr (s : PM) (hardAddr : String) : RRes Position :=
  match s.addrReverse hardAddr with
  | none => .fail (.addressNotFound hardAddr)
  | some id => s.Get id

/-- `math.MaxFloat64` = (2 − 2⁻⁵²) · 2¹⁰²³. -/
noncomputable def maxFloat64 : ℝ := 2 ^ 1024 - 2 ^ 971

/-- The Euclidean distance expression of `Distance`:
`math.Sqrt(pow(x₁−x₂,2) + pow(y₁−y₂,2) + pow(h₁−h₂,2))`. -/
noncomputable def euclid (p q : Position) : ℝ :=
  Real.sqrt (((p.x : ℝ) - q.x) ^ 2 + ((p.y : ℝ) - q.y) ^ 2
    + ((p.height : ℝ) - q.height) ^ 2)

/-- `Distance(index1, index2)`: two `Get` calls; if either returns an
error the result is `math.MaxFloat64`, otherwise the Euclidean distance.
A panic in either `Get` aborts the call. -/
noncomputable def PM.Distance (s : PM) (index1 index2 : ℤ) : DRes :=
  match s.Get index1, s.Get index2 with
  | .panic, _ => .panic
  | _, .panic => .panic
  | .ok p1, .ok p2 => .ok (euclid p1 p2)
  | _, _ => .ok maxFloat64

/-- `Set(index, x, y, height)`: same index-range, `p.mu[index]` and
enabled checks as `Get`; on success overwrites the three coordinate
fields of `p.pos[index]`. -/
def PM.Set (s : PM) (index : ℤ) (x y height : ℚ) : MRes :=
  if s.Capacity ≤ index then .fail (.indexOutOfRange index s.Capacity) s
  else if index < 0 then .panic
  else match s.isEnabled.get? index.toNat with
    | none => .panic
    | some b =>
      if !b then .fail (.nodeDisabled index) s
      else .ok { s with pos := s.pos.set index.toNat ⟨x, y, height⟩ }

/-- `SetPosition(index, pos)`: calls `Set` and returns nil regardless of
the error `Set` produced. -/
def PM.SetPosition (s : PM) (index : ℤ) (pos : Position) : MRes :=
  match s.Set index pos.x pos.y pos.height with
  | .ok s' => .ok s'
  | .fail _ s' => .ok s'
  | .panic => .panic

/-- `SetAddr(hardAddr, x, y, height)`: resolve via `addrReverse.GetS`;
on a miss fail with the "not found" error; otherwise `p.Set(id, ...)`
is called with its error discarded and nil is returned. -/
def PM.SetAddr (s : PM) (hardAddr : String) (x y height : ℚ) : MRes :=
  match s.addrReverse hardAddr with
  | none => .fail (.addressNotFound hardAddr) s
  | some id =>
    match s.Set id x y height with
    | .ok s' => .ok s'
    | .fail _ s' => .ok s'
    | .panic => .panic

/-- `SetPositionAddr(hardAddr, pos)`: resolve; on a miss fail with the
"not found" error; otherwise `p.SetPosition(id, pos)` is called with its
(always nil) error discarded and nil is returned. -/
def PM.SetPositionAddr (s : PM) (hardAddr : String) (pos : Position) : MRes :=
  match s.addrReverse hardAddr with
  | none => .fail (.addressNotFound hardAddr) s
  | some id =>
    match s.SetPosition id pos with
    | .ok s' => .ok s'
    | .fail _ s' => .ok s'
    | .panic => .panic

/-- The loop body of `calculateEnabled`: walk `isEnabled` accumulating
the index of every `true` entry, indices counted from `k`. -/
def calcFrom (k : ℤ) : List Bool → List ℤ
  | [] => []
  | v :: rest => if v then k :: calcFrom (k + 1) rest else calcFrom (k + 1) rest

/-- `calculateEnabled()`: ascending indices of all enabled slots. -/
def calculateEnabled (flags : List Bool) : List ℤ := calcFrom 0 flags

/-- `Enabled()`. -/
def PM.Enabled (s : PM) : List ℤ := calculateEnabled s.isEnabled

/-- `notifyEnabledChanged()`: send the freshly computed enabled list to
every registered channel (modelled as appending it to each log). -/
def PM.notifyEnabledChanged (s : PM) : PM :=
  { s with enabledChanged :=
      s.enabledChanged.map (fun log => log ++ [calculateEnabled s.isEnabled]) }

/-- `Enable(index)`: writes `p.isEnabled[index] = true` (panicking when
`index` is outside `[0, len(p.isEnabled))` — no range validation), then
notifies. `none` models the panic. -/
def PM.Enable (s : PM) (index : ℤ) : Option PM :=
  if 0 ≤ index ∧ index < (s.isEnabled.length : ℤ) then
    some (PM.notifyEnabledChanged { s with isEnabled := s.isEnabled.set index.toNat true })
  else none

/-- `Disable(index)`: same as `Enable` with `false`. -/
def PM.Disable (s : PM) (index : ℤ) : Option PM :=
  if 0 ≤ index ∧ index < (s.isEnabled.length : ℤ) then
    some (PM.notifyEnabledChanged { s with isEnabled := s.isEnabled.set index.toNat false })
  else none

/-- `IsEnabled(index)` (panics outside `[0, len(p.isEnabled))`). -/
def PM.IsEnabled (s : PM) (index : ℤ) : Option Bool :=
  if 0 ≤ index ∧ index < (s.isEnabled.length : ℤ) then
    s.isEnabled.get? index.toNat
  else none

/-- `RegisterEnabledChanged(channel)`: append a fresh channel (empty
message log) to the subscriber list. -/
def PM.RegisterEnabledChanged (s : PM) : PM :=
  { s with enabledChanged := s.enabledChanged ++ [[]] }

/-- `NewPositionManager` builds `pos`, `mu` and `isEnabled` slices of the
same length `size`; this well-formedness is preserved by every operation
and is assumed when a theorem quantifies over an arbitrary state. -/
def PM.WF (s : PM) : Prop := s.isEnabled.length = s.pos.length

instance (s : PM) : Decidable s.WF := by unfold PM.WF; infer_instance

/-! Helper lemmas and concrete resolvers used by witnesses. -/

/-- A resolver that knows no address. -/
def rNone : String → Option ℤ := fun _ => none

lemma capacity_new (n : ℕ) (r : String → Option ℤ) :
    (NewPositionManager n r).Capacity = (n : ℤ) := by
  simp [NewPositionManager, PM.Capacity]

lemma get_of_enabled (s : PM) (i : ℤ) (h0 : 0 ≤ i) (h1 : i < s.Capacity)
    (he : s.isEnabled.get? i.toNat = some true) :
    s.Get i = .ok (s.pos.getD i.toNat ⟨0, 0, 0⟩) := by
  unfold PM.Get
  rw [if_neg (by omega), if_neg (by omega), he]
  simp

lemma get_of_disabled (s : PM) (i : ℤ) (h0 : 0 ≤ i) (h1 : i < s.Capacity)
    (he : s.isEnabled.get? i.toNat = some false) :
    s.Get i = .fail (.nodeDisabled i) := by
  unfold PM.Get
  rw [if_neg (by omega), if_neg (by omega), he]
  simp

/-- C1: on a fresh registry every valid index is disabled, so `Get` fails
with the node-disabled error; after `Enable i` the same `Get` succeeds
and returns the initial position `(0,0,0)`. -/
theorem C1_fresh_get_disabled_enable_get_zero (n : ℕ) (r : String → Option ℤ)
    (i : ℤ) (h0 : 0 ≤ i) (h1 : i < (n : ℤ)) :
    (NewPositionManager n r).Get i = .fail (.nodeDisabled i) ∧
    ∃ s', (NewPositionManager n r).Enable i = some s' ∧
      s'.Get i = .ok ⟨0, 0, 0⟩ := by
  have hi : i.toNat < n := by omega
  constructor
  · refine get_of_disabled _ i h0 (by rw [capacity_new]; omega) ?_
    simp [NewPositionManager, List.get?_eq_getElem?, List.getElem?_replicate, hi]
  · refine ⟨PM.notifyEnabledChanged
      { NewPositionManager n r with
        isEnabled := (NewPositionManager n r).isEnabled.set i.toNat true },
      ?_, ?_⟩
    · unfold PM.Enable
      rw [if_pos (by constructor; exact h0; simp [NewPositionManager]; omega)]
    · rw [get_of_enabled]
      · simp [PM.notifyEnabledChanged, NewPositionManager, List.getD,
          List.get?_eq_getElem?, List.getElem?_replicate, hi]
      · exact h0
      · simp [PM.notifyEnabledChanged, NewPositionManager, PM.Capacity]; omega
      · simp [PM.notifyEnabledChanged, NewPositionManager,
          List.get?_eq_getElem?, List.getElem?_set_self, hi]

/-- Witness for C1 at the concrete input `n = 2`, `i = 0`. -/
theorem C1_witness :
    (0 : ℤ) ≤ 0 ∧ (0 : ℤ) < ((2 : ℕ) : ℤ) ∧
    ((NewPositionManager 2 rNone).Get 0 = .fail (.nodeDisabled 0) ∧
     ∃ s', (NewPositionManager 2 rNone).Enable 0 = some s' ∧
       s'.Get 0 = .ok ⟨0, 0, 0⟩) :=
  ⟨by decide, by decide,
    C1_fresh_get_disabled_enable_get_zero 2 rNone 0 (by decide) (by decide)⟩

/-- C2: round-trip — on a fresh registry, `Enable i` then
`Set i x y h` succeeds, and `Get i` then returns exactly `(x, y, h)`. -/
theorem C2_enable_set_get_roundtrip (n : ℕ) (r : String → Option ℤ)
    (i : ℤ) (x y h : ℚ) (h0 : 0 ≤ i) (h1 : i < (n : ℤ)) :
    ∃ s1 s2, (NewPositionManager n r).Enable i = some s1 ∧
      s1.Set i x y h = .ok s2 ∧ s2.Get i = .ok ⟨x, y, h⟩ := by
  have hi : i.toNat < n := by omega
  refine ⟨PM.notifyEnabledChanged
      { NewPositionManager n r with
        isEnabled := (NewPositionManager n r).isEnabled.set i.toNat true },
    { PM.notifyEnabledChanged
        { NewPositionManager n r with
          isEnabled := (NewPositionManager n r).isEnabled.set i.toNat true } with
      pos := (PM.notifyEnabledChanged
        { NewPositionManager n r with
          isEnabled := (NewPositionManager n r).isEnabled.set i.toNat true
        }).pos.set i.toNat ⟨x, y, h⟩ },
    ?_, ?_, ?_⟩
  · unfold PM.Enable
    rw [if_pos (by constructor; exact h0; simp [NewPositionManager]; omega)]
  · unfold PM.Set
    rw [if_neg (by simp [PM.notifyEnabledChanged, NewPositionManager, PM.Capacity]; omega),
      if_neg (by omega)]
    rw [show (PM.notifyEnabledChanged
        { NewPositionManager n r with
          isEnabled := (NewPositionManager n r).isEnabled.set i.toNat true
        }).isEnabled.get? i.toNat = some true by
      simp [PM.notifyEnabledChanged, NewPositionManager,
        List.get?_eq_getElem?, List.getElem?_set_self, hi]]
    simp
  · rw [get_of_enabled]
    · simp [PM.notifyEnabledChanged, NewPositionManager, List.getD,
        List.get?_eq_getElem?, List.getElem?_set_self, hi]
    · exact h0
    · simp [PM.notifyEnabledChanged, NewPositionManager, PM.Capacity]; omega
    · simp [PM.notifyEnabledChanged, NewPositionManager,
        List.get?_eq_getElem?, List.getElem?_set_self, hi]

/-- Witness for C2 at `n = 2`, `i = 1`, `(x,y,h) = (5, 7, 9)`. -/
theorem C2_witness :
    (0 : ℤ) ≤ 1 ∧ (1 : ℤ) < ((2 : ℕ) : ℤ) ∧
    ∃ s1 s2, (NewPositionManager 2 rNone).Enable 1 = some s1 ∧
      s1.Set 1 5 7 9 = .ok s2 ∧ s2.Get 1 = .ok ⟨5, 7, 9⟩ :=
  ⟨by decide, by decide,
    C2_enable_set_get_roundtrip 2 rNone 1 5 7 9 (by decide) (by decide)⟩

/-- C3: for any state and any index at or above capacity, `Get` and
`Set` fail with the out-of-range error, and `Set` leaves the state
unchanged (the error carries the original state; `Get` reads only). -/
theorem C3_out_of_range_get_set (s : PM) (i : ℤ) (x y h : ℚ)
    (hge : s.Capacity ≤ i) :
    s.Get i = .fail (.indexOutOfRange i s.Capacity) ∧
    s.Set i x y h = .fail (.indexOutOfRange i s.Capacity) s := by
  constructor
  · unfold PM.Get; rw [if_pos hge]
  · unfold PM.Set; rw [if_pos hge]

/-- Witness for C3 at the fresh registry of capacity 2 and `i = 5`. -/
theorem C3_witness :
    (NewPositionManager 2 rNone).Capacity ≤ 5 ∧
    ((NewPositionManager 2 rNone).Get 5
        = .fail (.indexOutOfRange 5 (NewPositionManager 2 rNone).Capacity) ∧
     (NewPositionManager 2 rNone).Set 5 1 2 3
        = .fail (.indexOutOfRange 5 (NewPositionManager 2 rNone).Capacity)
            (NewPositionManager 2 rNone)) :=
  ⟨by decide, C3_out_of_range_get_set (NewPositionManager 2 rNone) 5 1 2 3 (by decide)⟩

/-- C9: `Get` and `Set` only check the upper bound `index >= len(p.pos)`;
a negative index passes that check and the subsequent `p.mu[index]`
access panics instead of producing an `IndexOutOfRange` error. -/
theorem C9_negative_index_panics (s : PM) (i : ℤ) (x y h : ℚ) (hneg : i < 0) :
    s.Get i = .panic ∧ s.Set i x y h = .panic := by
  have hcap : ¬ s.Capacity ≤ i := by unfold PM.Capacity; omega
  constructor
  · unfold PM.Get; rw [if_neg hcap, if_pos hneg]
  · unfold PM.Set; rw [if_neg hcap, if_pos hneg]

/-- Witness for C9 at the fresh registry of capacity 2 and `i = -1`. -/
theorem C9_witness :
    (-1 : ℤ) < 0 ∧
    ((NewPositionManager 2 rNone).Get (-1) = .panic ∧
     (NewPositionManager 2 rNone).Set (-1) 1 2 3 = .panic) :=
  ⟨by decide, C9_negative_index_panics (NewPositionManager 2 rNone) (-1) 1 2 3 (by decide)⟩

/-- C10: `SetPosition` never returns an error — when the delegated `Set`
fails (out-of-range or disabled), the error is silently discarded and
`SetPosition` returns nil with the state `Set` left behind. -/
theorem C10_setposition_swallows_errors (s : PM) (i : ℤ) (p : Position) :
    (∀ e s', s.SetPosition i p ≠ .fail e s') ∧
    (∀ e s', s.Set i p.x p.y p.height = .fail e s' →
      s.SetPosition i p = .ok s') := by
  constructor
  · intro e s'
    unfold PM.SetPosition
    cases s.Set i p.x p.y p.height <;> simp
  · intro e s' hfail
    unfold PM.SetPosition
    rw [hfail]

/-- Witness for C10: on a fresh registry of capacity 2, `Set 0` fails
with the node-disabled error, yet `SetPosition 0` returns nil. -/
theorem C10_witness :
    (NewPositionManager 2 rNone).Set 0 1 2 3
        = .fail (.nodeDisabled 0) (NewPositionManager 2 rNone) ∧
    (NewPositionManager 2 rNone).SetPosition 0 ⟨1, 2, 3⟩
        = .ok (NewPositionManager 2 rNone) := by
  have hfail : (NewPositionManager 2 rNone).Set 0 1 2 3
      = .fail (.nodeDisabled 0) (NewPositionManager 2 rNone) := rfl
  exact ⟨hfail,
    (C10_setposition_swallows_errors (NewPositionManager 2 rNone) 0 ⟨1, 2, 3⟩).2
      (.nodeDisabled 0) (NewPositionManager 2 rNone) hfail⟩

/-- C8: `Enable` and `Disable` do no index-range validation — their Go
signatures have no error return at all (modelled by `Option PM`, which
has no error constructor), and writing `p.isEnabled[index]` with
`index ≥ capacity` panics (modelled by `none`). -/
theorem C8_enable_disable_out_of_range_panics (s : PM) (i : ℤ)
    (hWF : s.WF) (hge : s.Capacity ≤ i) :
    s.Enable i = none ∧ s.Disable i = none := by
  have hlen : ¬ (0 ≤ i ∧ i < (s.isEnabled.length : ℤ)) := by
    unfold PM.WF at hWF; unfold PM.Capacity at hge
    omega
  constructor
  · unfold PM.Enable; rw [if_neg hlen]
  · unfold PM.Disable; rw [if_neg hlen]

/-- Witness for C8 at the fresh registry of capacity 2 and `i = 5`. -/
theorem C8_witness :
    (NewPositionManager 2 rNone).WF ∧
    (NewPositionManager 2 rNone).Capacity ≤ 5 ∧
    ((NewPositionManager 2 rNone).Enable 5 = none ∧
     (NewPositionManager 2 rNone).Disable 5 = none) :=
  ⟨by decide, by decide,
    C8_enable_disable_out_of_range_panics (NewPositionManager 2 rNone) 5
      (by decide) (by decide)⟩

/-! Shape lemmas for `Get`, used by the `Distance` claims. -/

lemma get_shape (s : PM) (k : ℤ) (hWF : s.WF) (h0 : 0 ≤ k) :
    (∃ p, s.Get k = .ok p) ∨ (∃ e, s.Get k = .fail e) := by
  unfold PM.Get
  by_cases hc : s.Capacity ≤ k
  · rw [if_pos hc]; exact Or.inr ⟨_, rfl⟩
  · rw [if_neg hc, if_neg (by omega)]
    have hk : k.toNat < s.isEnabled.length := by
      unfold PM.WF at hWF; unfold PM.Capacity at hc; omega
    rw [List.get?_eq_getElem?, List.getElem?_eq_getElem hk]
    cases hb : s.isEnabled[k.toNat] <;> simp

lemma get_fails_of (s : PM) (k : ℤ)
    (h : s.Capacity ≤ k ∨ (0 ≤ k ∧ s.isEnabled.get? k.toNat = some false)) :
    ∃ e, s.Get k = .fail e := by
  rcases h with hc | ⟨h0, hf⟩
  · exact ⟨_, by unfold PM.Get; rw [if_pos hc]⟩
  · by_cases hc : s.Capacity ≤ k
    · exact ⟨_, by unfold PM.Get; rw [if_pos hc]⟩
    · refine ⟨.nodeDisabled k, ?_⟩
      unfold PM.Get
      rw [if_neg hc, if_neg (by omega), hf]
      simp

/-- C4 (amended): for nonnegative indices, if `i` or `j` is at or above
capacity or addresses a disabled node, `Distance` returns the
`math.MaxFloat64` sentinel and no error. (A negative index instead
panics inside `Get` — see the counterexample.) -/
theorem C4_amended_distance_sentinel (s : PM) (i j : ℤ) (hWF : s.WF)
    (hi0 : 0 ≤ i) (hj0 : 0 ≤ j)
    (hbad : s.Capacity ≤ i ∨ s.isEnabled.get? i.toNat = some false ∨
            s.Capacity ≤ j ∨ s.isEnabled.get? j.toNat = some false) :
    s.Distance i j = .ok maxFloat64 := by
  have hsi := get_shape s i hWF hi0
  have hsj := get_shape s j hWF hj0
  have hfail : (∃ e, s.Get i = .fail e) ∨ (∃ e, s.Get j = .fail e) := by
    rcases hbad with hb | hb | hb | hb
    · exact Or.inl (get_fails_of s i (Or.inl hb))
    · exact Or.inl (get_fails_of s i (Or.inr ⟨hi0, hb⟩))
    · exact Or.inr (get_fails_of s j (Or.inl hb))
    · exact Or.inr (get_fails_of s j (Or.inr ⟨hj0, hb⟩))
  unfold PM.Distance
  rcases hsi with ⟨p, hp⟩ | ⟨e, he⟩
  · rcases hsj with ⟨q, hq⟩ | ⟨f, hf⟩
    · exfalso
      rcases hfail with ⟨e, he⟩ | ⟨f, hf⟩
      · rw [hp] at he; cases he
      · rw [hq] at hf; cases hf
    · rw [hp, hf]
  · rcases hsj with ⟨q, hq⟩ | ⟨f, hf⟩
    · rw [he, hq]
    · rw [he, hf]

/-- Witness for C4's amended theorem: capacity 2, `i = 0` disabled,
`j = 1` disabled. -/
theorem C4_witness :
    (NewPositionManager 2 rNone).WF ∧ (0 : ℤ) ≤ 0 ∧ (0 : ℤ) ≤ 1 ∧
    (NewPositionManager 2 rNone).isEnabled.get? (0 : ℤ).toNat = some false ∧
    (NewPositionManager 2 rNone).Distance 0 1 = .ok maxFloat64 :=
  ⟨by decide, by decide, by decide, by decide,
    C4_amended_distance_sentinel (NewPositionManager 2 rNone) 0 1
      (by decide) (by decide) (by decide) (Or.inr (Or.inl (by decide)))⟩

/-- Counterexample to C4 as stated: with `i = 5` out of range and
`j = -1`, the pair qualifies ("i or j is out of range"), yet `Distance`
panics on the negative index instead of returning the sentinel. -/
theorem C4_counterexample :
    (NewPositionManager 2 rNone).Distance 5 (-1) = DRes.panic ∧
    (NewPositionManager 2 rNone).Distance 5 (-1) ≠ DRes.ok maxFloat64 := by
  have h : (NewPositionManager 2 rNone).Distance 5 (-1) = DRes.panic := rfl
  exact ⟨h, by rw [h]; exact fun hc => DRes.noConfusion hc⟩

/-- Euclidean distance is symmetric in its two endpoints. -/
lemma euclid_comm (p q : Position) : euclid p q = euclid q p := by
  unfold euclid
  congr 1
  ring

/-- C7: for enabled (hence in-range) indices `i` and `j`, `Distance` is
symmetric. -/
theorem C7_distance_symmetric (s : PM) (i j : ℤ)
    (hi0 : 0 ≤ i) (hi1 : i < s.Capacity)
    (hj0 : 0 ≤ j) (hj1 : j < s.Capacity)
    (hie : s.isEnabled.get? i.toNat = some true)
    (hje : s.isEnabled.get? j.toNat = some true) :
    s.Distance i j = s.Distance j i := by
  have hgi := get_of_enabled s i hi0 hi1 hie
  have hgj := get_of_enabled s j hj0 hj1 hje
  unfold PM.Distance
  rw [hgi, hgj]
  exact congrArg DRes.ok (euclid_comm _ _)

/-- A concrete two-node state with both nodes enabled, for C7's witness. -/
def pmBothEnabled : PM :=
  { pos := [⟨0, 0, 0⟩, ⟨1, 2, 3⟩]
    isEnabled := [true, true]
    enabledChanged := []
    addrReverse := rNone }

/-- Witness for C7 on a concrete state with nodes 0 and 1 enabled. -/
theorem C7_witness :
    (0 : ℤ) ≤ 0 ∧ (0 : ℤ) < pmBothEnabled.Capacity ∧
    (0 : ℤ) ≤ 1 ∧ (1 : ℤ) < pmBothEnabled.Capacity ∧
    pmBothEnabled.isEnabled.get? (0 : ℤ).toNat = some true ∧
    pmBothEnabled.isEnabled.get? (1 : ℤ).toNat = some true ∧
    pmBothEnabled.Distance 0 1 = pmBothEnabled.Distance 1 0 :=
  ⟨by decide, by decide, by decide, by decide, by decide, by decide,
    C7_distance_symmetric pmBothEnabled 0 1 (by decide) (by decide)
      (by decide) (by decide) (by decide) (by decide)⟩

/-- The error-discarding pattern of `SetAddr`/`SetPositionAddr`: the
delegated call's error is dropped and nil is returned (a panic still
aborts). Used to state the amended C5. -/
def discardErr : MRes → MRes
  | .ok s => .ok s
  | .fail _ s => .ok s
  | .panic => .panic

/-- A resolver mapping the single address "x" to index 5, for C5's
counterexample. -/
def rFive : String → Option ℤ := fun a => if a = "x" then some 5 else none

/-- Counterexample to C5 as stated: with capacity 2 and "x" resolving to
the out-of-range index 5, `Set 5` produces an `IndexOutOfRange` error,
yet `SetAddr "x"` discards it and returns nil — it does not forward the
delegated operation's error. -/
theorem C5_counterexample :
    (NewPositionManager 2 rFive).addrReverse "x" = some 5 ∧
    (NewPositionManager 2 rFive).Set 5 1 2 3
      = .fail (.indexOutOfRange 5 (NewPositionManager 2 rFive).Capacity)
          (NewPositionManager 2 rFive) ∧
    (NewPositionManager 2 rFive).SetAddr "x" 1 2 3
      = .ok (NewPositionManager 2 rFive) ∧
    ∀ e s', (NewPositionManager 2 rFive).SetAddr "x" 1 2 3 ≠ .fail e s' := by
  have hok : (NewPositionManager 2 rFive).SetAddr "x" 1 2 3
      = .ok (NewPositionManager 2 rFive) := rfl
  exact ⟨rfl, rfl, hok, fun e s' hc => by rw [hok] at hc; cases hc⟩

/-- C5 (amended): each address-based operation fails with the
address-not-found error on a resolver miss; on a hit, `GetAddr` delegates
to `Get` and forwards its error, while `SetAddr` and `SetPositionAddr`
delegate to `Set`/`SetPosition` but discard any error the delegated call
produces, returning nil. -/
theorem C5_amended_address_ops (s : PM) (addr : String) (x y h : ℚ)
    (p : Position) :
    (s.addrReverse addr = none →
      s.GetAddr addr = .fail (.addressNotFound addr) ∧
      s.SetAddr addr x y h = .fail (.addressNotFound addr) s ∧
      s.SetPositionAddr addr p = .fail (.addressNotFound addr) s) ∧
    (∀ id, s.addrReverse addr = some id →
      s.GetAddr addr = s.Get id ∧
      s.SetAddr addr x y h = discardErr (s.Set id x y h) ∧
      s.SetPositionAddr addr p = discardErr (s.SetPosition id p)) := by
  constructor
  · intro hn
    refine ⟨?_, ?_, ?_⟩
    · unfold PM.GetAddr; rw [hn]
    · unfold PM.SetAddr; rw [hn]
    · unfold PM.SetPositionAddr; rw [hn]
  · intro id hid
    refine ⟨?_, ?_, ?_⟩
    · unfold PM.GetAddr; rw [hid]
    · unfold PM.SetAddr; rw [hid]
      show (match s.Set id x y h with
        | MRes.ok s' => MRes.ok s'
        | MRes.fail _ s' => MRes.ok s'
        | MRes.panic => MRes.panic) = discardErr (s.Set id x y h)
      unfold discardErr
      cases s.Set id x y h <;> rfl
    · unfold PM.SetPositionAddr; rw [hid]
      show (match s.SetPosition id p with
        | MRes.ok s' => MRes.ok s'
        | MRes.fail _ s' => MRes.ok s'
        | MRes.panic => MRes.panic) = discardErr (s.SetPosition id p)
      unfold discardErr
      cases s.SetPosition id p <;> rfl

/-- Witness for C5's amended theorem: the resolver `rFive` misses "y"
and resolves "x" to 5. -/
theorem C5_witness :
    (NewPositionManager 2 rFive).addrReverse "y" = none ∧
    (NewPositionManager 2 rFive).GetAddr "y" = .fail (.addressNotFound "y") ∧
    (NewPositionManager 2 rFive).addrReverse "x" = some 5 ∧
    (NewPositionManager 2 rFive).SetAddr "x" 1 2 3
      = discardErr ((NewPositionManager 2 rFive).Set 5 1 2 3) :=
  ⟨rfl,
    ((C5_amended_address_ops (NewPositionManager 2 rFive) "y" 1 2 3
      ⟨1, 2, 3⟩).1 rfl).1,
    rfl,
    (((C5_amended_address_ops (NewPositionManager 2 rFive) "x" 1 2 3
      ⟨1, 2, 3⟩).2 5 rfl).2).1⟩

/-! Lemmas about `calcFrom` used by the notification claim. -/

lemma calcFrom_le (flags : List Bool) :
    ∀ k x, x ∈ calcFrom k flags → k ≤ x := by
  induction flags with
  | nil => intro k x hx; simp [calcFrom] at hx
  | cons v rest ih =>
    intro k x hx
    unfold calcFrom at hx
    by_cases hv : v = true
    · rw [if_pos hv] at hx
      rcases List.mem_cons.mp hx with rfl | hx
      · omega
      · have := ih (k + 1) x hx; omega
    · rw [if_neg hv] at hx
      have := ih (k + 1) x hx; omega

lemma calcFrom_sorted (flags : List Bool) :
    ∀ k, List.Sorted (· < ·) (calcFrom k flags) := by
  induction flags with
  | nil => intro k; simp [calcFrom]
  | cons v rest ih =>
    intro k
    unfold calcFrom
    by_cases hv : v = true
    · rw [if_pos hv]
      rw [List.sorted_cons]
      refine ⟨fun b hb => ?_, ih (k + 1)⟩
      have := calcFrom_le rest (k + 1) b hb; omega
    · rw [if_neg hv]; exact ih (k + 1)

lemma calcFrom_replicate_false (m : ℕ) :
    ∀ k, calcFrom k (List.replicate m false) = [] := by
  induction m with
  | zero => intro k; rfl
  | succ m ih =>
    intro k
    rw [List.replicate_succ]
    unfold calcFrom
    rw [if_neg (by simp)]
    exact ih (k + 1)

/-- Registering `k` fresh subscriber channels in sequence. -/
def registerMany : ℕ → PM → PM
  | 0, s => s
  | k + 1, s => registerMany k s.RegisterEnabledChanged

lemma registerMany_pos (k : ℕ) : ∀ s : PM, (registerMany k s).pos = s.pos := by
  induction k with
  | zero => intro s; rfl
  | succ k ih => intro s; rw [registerMany, ih]; rfl

lemma registerMany_isEnabled (k : ℕ) :
    ∀ s : PM, (registerMany k s).isEnabled = s.isEnabled := by
  induction k with
  | zero => intro s; rfl
  | succ k ih => intro s; rw [registerMany, ih]; rfl

lemma registerMany_enabledChanged (k : ℕ) :
    ∀ s : PM, (registerMany k s).enabledChanged
      = s.enabledChanged ++ List.replicate k [] := by
  induction k with
  | zero => intro s; simp [registerMany]
  | succ k ih =>
    intro s
    rw [registerMany, ih]
    show (s.enabledChanged ++ [[]]) ++ List.replicate k [] = _
    rw [List.append_assoc, List.replicate_succ]
    rfl

lemma enable_eq (s : PM) (i : ℤ) (h0 : 0 ≤ i)
    (h1 : i < (s.isEnabled.length : ℤ)) :
    s.Enable i = some (PM.notifyEnabledChanged
      { s with isEnabled := s.isEnabled.set i.toNat true }) := by
  unfold PM.Enable
  rw [if_pos ⟨h0, h1⟩]

lemma registerMany_addrReverse (k : ℕ) :
    ∀ s : PM, (registerMany k s).addrReverse = s.addrReverse := by
  induction k with
  | zero => intro s; rfl
  | succ k ih => intro s; rw [registerMany, ih]; rfl

/-- C6: on a fresh registry of capacity `n ≥ 4` with `k` registered
subscribers, `Enable 3` delivers `[3]` to every subscriber and the
subsequent `Enable 1` delivers `[1, 3]`; and every list
`calculateEnabled` ever delivers is in strictly ascending index order,
regardless of the order in which nodes were enabled. -/
theorem C6_enable_notifications_ascending (n k : ℕ) (r : String → Option ℤ)
    (hn : 4 ≤ n) :
    (∃ s1 s2,
      (registerMany k (NewPositionManager n r)).Enable 3 = some s1 ∧
      s1.Enable 1 = some s2 ∧
      s1.enabledChanged = List.replicate k [[3]] ∧
      s2.enabledChanged = List.replicate k [[3], [1, 3]]) ∧
    ∀ flags : List Bool, List.Sorted (· < ·) (calculateEnabled flags) := by
  obtain ⟨m, rfl⟩ : ∃ m, n = m + 4 := ⟨n - 4, by omega⟩
  constructor
  · set s0 := registerMany k (NewPositionManager (m + 4) r) with hs0
    have h_pos0 : s0.pos = List.replicate (m + 4) ⟨0, 0, 0⟩ := by
      rw [hs0, registerMany_pos]
      rfl
    have h_en0 : s0.isEnabled = List.replicate (m + 4) false := by
      rw [hs0, registerMany_isEnabled]
      rfl
    have h_ec0 : s0.enabledChanged = List.replicate k [] := by
      rw [hs0, registerMany_enabledChanged]
      simp [NewPositionManager]
    have h_ar0 : s0.addrReverse = r := by
      rw [hs0, registerMany_addrReverse]
      rfl
    have hL1 : (List.replicate (m + 4) false).set 3 true
        = false :: false :: false :: true :: List.replicate m false := rfl
    have hL2 : (false :: false :: false :: true :: List.replicate m false).set 1 true
        = false :: true :: false :: true :: List.replicate m false := rfl
    have hcalc1 : calculateEnabled
        (false :: false :: false :: true :: List.replicate m false) = [3] := by
      norm_num [calculateEnabled, calcFrom, calcFrom_replicate_false]
    have hcalc2 : calculateEnabled
        (false :: true :: false :: true :: List.replicate m false) = [1, 3] := by
      norm_num [calculateEnabled, calcFrom, calcFrom_replicate_false]
    refine ⟨{ pos := List.replicate (m + 4) ⟨0, 0, 0⟩
              isEnabled := false :: false :: false :: true :: List.replicate m false
              enabledChanged := List.replicate k [[3]]
              addrReverse := r },
            { pos := List.replicate (m + 4) ⟨0, 0, 0⟩
              isEnabled := false :: true :: false :: true :: List.replicate m false
              enabledChanged := List.replicate k [[3], [1, 3]]
              addrReverse := r }, ?_, ?_, rfl, rfl⟩
    · rw [enable_eq s0 3 (by norm_num)
        (by rw [h_en0]; simp only [List.length_replicate]; omega)]
      unfold PM.notifyEnabledChanged
      simp only [show ((3 : ℤ).toNat) = 3 from rfl, h_pos0, h_en0, h_ec0, h_ar0,
        hL1, hcalc1, List.map_replicate, List.nil_append]
    · rw [enable_eq _ 1 (by norm_num)
        (by simp only [List.length_cons, List.length_replicate]; omega)]
      unfold PM.notifyEnabledChanged
      simp only [show ((1 : ℤ).toNat) = 1 from rfl, hL2, hcalc2,
        List.map_replicate, List.cons_append, List.nil_append]
  · exact fun flags => calcFrom_sorted flags 0

/-- Witness for C6 at `n = 4`, `k = 1`. -/
theorem C6_witness :
    4 ≤ 4 ∧
    ((∃ s1 s2,
      (registerMany 1 (NewPositionManager 4 rNone)).Enable 3 = some s1 ∧
      s1.Enable 1 = some s2 ∧
      s1.enabledChanged = List.replicate 1 [[3]] ∧
      s2.enabledChanged = List.replicate 1 [[3], [1, 3]]) ∧
    ∀ flags : List Bool, List.Sorted (· < ·) (calculateEnabled flags)) :=
  ⟨by decide, C6_enable_notifications_ascending 4 1 rNone (by decide)⟩
